import Mathlib

/-!
Verification development for the `janus-conference-logger` crate
(`src/lib.rs`, `src/janus_logger.rs`).

The Rust source is shallowly embedded over `List Char` (one element per
Unicode scalar, matching Rust `&str` iteration by `char`).  Machine
integers are modelled as `Int`/`Nat` with explicit range conditions where
the Rust code can overflow or panic.

Modelling notes, fixed up front:
* The regex class `\d` (crate `regex`, Unicode mode) is modelled as the
  ASCII digits `0`-`9`; Janus log lines are ASCII, and every concrete
  input used below is ASCII, where the model and the source agree exactly.
* `str::trim` / whitespace are modelled on their ASCII fragment.
* `chrono`'s `NaiveDateTime::from_timestamp(secs, nsecs)` (chrono 0.4)
  panics when `nsecs` is not below 2_000_000_000 or when `secs` falls
  outside the representable calendar range
  `[-8334632851200, 8210298412799]` (years -262144 to 262143).  A panic
  is modelled as `Option.none`.
-/

/-- ASCII fragment of Rust `char::is_whitespace` (`str::trim`). -/
def isRustWs (c : Char) : Bool :=
  c == ' ' || c == '\t' || c == '\n' || c == '\x0d' || c == '\x0b' || c == '\x0c'

/-- Model of `str::trim`: strip leading and trailing whitespace. -/
def rustTrim (l : List Char) : List Char :=
  ((l.dropWhile isRustWs).reverse.dropWhile isRustWs).reverse

/-- The JSON whitespace characters accepted by `serde_json` between tokens. -/
def jsonWs (c : Char) : Bool :=
  c == ' ' || c == '\t' || c == '\n' || c == '\x0d'

/-- Skip JSON whitespace. -/
def skipWs (l : List Char) : List Char := l.dropWhile jsonWs

/-- Numeric value of a hex digit, if any (`\uXXXX` escapes). -/
def hexVal (c : Char) : Option Nat :=
  if '0' ≤ c ∧ c ≤ '9' then some (c.toNat - 48)
  else if 'a' ≤ c ∧ c ≤ 'f' then some (c.toNat - 87)
  else if 'A' ≤ c ∧ c ≤ 'F' then some (c.toNat - 55)
  else none

/-- Value of four hex digits. -/
def hex4 (a b c d : Char) : Option Nat := do
  let x ← hexVal a
  let y ← hexVal b
  let z ← hexVal c
  let w ← hexVal d
  pure (((x * 16 + y) * 16 + z) * 16 + w)

/-- Numeric value of a run of ASCII decimal digits (as written, base 10). -/
def digitsToNat (ds : List Char) : Nat :=
  ds.foldl (fun a c => a * 10 + (c.toNat - 48)) 0

/-- Single-character JSON escapes other than `\u` (serde_json's set). -/
def escMap (e : Char) : Option Char :=
  if e == '"' then some '"'
  else if e == '\\' then some '\\'
  else if e == '/' then some '/'
  else if e == 'b' then some '\x08'
  else if e == 'f' then some '\x0c'
  else if e == 'n' then some '\n'
  else if e == 'r' then some '\x0d'
  else if e == 't' then some '\t'
  else none

/-- Parse the body of a JSON string (after the opening quote), returning the
unescaped contents and the input after the closing quote.  Mirrors
`serde_json`'s strict string reader: raw control characters and lone
surrogates are errors; surrogate pairs combine. -/
def pStr : List Char → Option (List Char × List Char)
  | [] => none
  | c :: r =>
    if c == '"' then some ([], r)
    else if c == '\\' then
      match r with
      | [] => none
      | e :: r2 =>
        if e == 'u' then
          match r2 with
          | h1 :: h2 :: h3 :: h4 :: r3 =>
            match hex4 h1 h2 h3 h4 with
            | none => none
            | some n =>
              if 0xd800 ≤ n ∧ n ≤ 0xdbff then
                match r3 with
                | '\\' :: 'u' :: g1 :: g2 :: g3 :: g4 :: r4 =>
                  match hex4 g1 g2 g3 g4 with
                  | none => none
                  | some m =>
                    if 0xdc00 ≤ m ∧ m ≤ 0xdfff then
                      (pStr r4).map fun p =>
                        (Char.ofNat (0x10000 + (n - 0xd800) * 0x400 + (m - 0xdc00)) :: p.1, p.2)
                    else none
                | _ => none
              else if 0xdc00 ≤ n ∧ n ≤ 0xdfff then none
              else (pStr r3).map fun p => (Char.ofNat n :: p.1, p.2)
          | _ => none
        else
          match escMap e with
          | some ec => (pStr r2).map fun p => (ec :: p.1, p.2)
          | none => none
    else if c.toNat < 0x20 then none
    else (pStr r).map fun p => (c :: p.1, p.2)

/-- Parse the fractional part of a JSON number, if present.  Returns whether a
fraction was present and the remaining input. -/
def pFrac : List Char → Option (Bool × List Char)
  | '.' :: r =>
    let ds := r.takeWhile Char.isDigit
    if ds.isEmpty then none else some (true, r.drop ds.length)
  | l => some (false, l)

/-- Parse the exponent part of a JSON number, if present. -/
def pExp : List Char → Option (Bool × List Char)
  | c :: r =>
    if c == 'e' || c == 'E' then
      let r2 := match r with
        | s :: r' => if s == '+' || s == '-' then r' else s :: r'
        | [] => []
      let ds := r2.takeWhile Char.isDigit
      if ds.isEmpty then none else some (true, r2.drop ds.length)
    else some (false, c :: r)
  | [] => some (false, [])

/-- Parse a JSON number per the JSON grammar (as `serde_json` does):
sign, integer part and value, whether a fraction or exponent was present,
and the remaining input. -/
def pNum (l : List Char) : Option (Bool × Nat × Bool × List Char) :=
  let (neg, l1) := match l with
    | '-' :: r => (true, r)
    | _ => (false, l)
  match l1 with
  | [] => none
  | c :: r =>
    if c == '0' then
      match r with
      | d :: _ =>
        if d.isDigit then none
        else do
          let (f, l2) ← pFrac r
          let (e, l3) ← pExp l2
          pure (neg, 0, f || e, l3)
      | [] => pure (neg, 0, false, [])
    else if c.isDigit then
      let ds := (c :: r).takeWhile Char.isDigit
      do
        let (f, l2) ← pFrac ((c :: r).drop ds.length)
        let (e, l3) ← pExp l2
        pure (neg, digitsToNat ds, f || e, l3)
    else none

mutual

/-- Skip one JSON value (serde's `IgnoredAny` for unknown object keys):
validates the syntax and returns the remaining input.  `fuel` bounds the
nesting recursion; callers supply fuel larger than the input length. -/
def pSkip : Nat → List Char → Option (List Char)
  | 0, _ => none
  | fuel + 1, l =>
    match l with
    | 'n' :: 'u' :: 'l' :: 'l' :: r => some r
    | 't' :: 'r' :: 'u' :: 'e' :: r => some r
    | 'f' :: 'a' :: 'l' :: 's' :: 'e' :: r => some r
    | '"' :: r => (pStr r).map Prod.snd
    | '[' :: r =>
      match skipWs r with
      | ']' :: r2 => some r2
      | l2 => do
        let r2 ← pSkip fuel l2
        pSkipArrRest fuel r2
    | '\x7b' :: r =>
      match skipWs r with
      | '\x7d' :: r2 => some r2
      | l2 => pSkipObjItem fuel l2
    | l => (pNum l).map fun x => x.2.2.2

/-- After one array element: expect `,` and another element, or `]`. -/
def pSkipArrRest : Nat → List Char → Option (List Char)
  | 0, _ => none
  | fuel + 1, l =>
    match skipWs l with
    | ',' :: r => do
      let r2 ← pSkip fuel (skipWs r)
      pSkipArrRest fuel r2
    | ']' :: r => some r
    | _ => none

/-- One `"key": value` pair of a skipped object, positioned at the key. -/
def pSkipObjItem : Nat → List Char → Option (List Char)
  | 0, _ => none
  | fuel + 1, l =>
    match l with
    | '"' :: r => do
      let p ← pStr r
      match skipWs p.2 with
      | ':' :: r2 => do
        let r3 ← pSkip fuel (skipWs r2)
        pSkipObjRest fuel r3
      | _ => none
    | _ => none

/-- After one object pair: expect `,` and another pair, or the closing brace. -/
def pSkipObjRest : Nat → List Char → Option (List Char)
  | 0, _ => none
  | fuel + 1, l =>
    match skipWs l with
    | ',' :: r =>
      match skipWs r with
      | '"' :: r2 => pSkipObjItem fuel ('"' :: r2)
      | _ => none
    | '\x7d' :: r => some r
    | _ => none

end

/-- `struct ConferenceTags` (src/lib.rs lines 48-58): four optional fields,
all defaulting to absent. -/
structure ConferenceTags where
  handle_id : Option Nat := none
  rtc_id : Option (List Char) := none
  agent_id : Option (List Char) := none
  transaction : Option (List Char) := none
deriving DecidableEq

/-- Deserialize a JSON value into `Option<usize>` (field `handle_id`):
`null` is `None`; an unsigned integer literal below `2^64` is `Some`;
floats, signed, exponent forms and non-numbers are errors. -/
def pOptUsize : List Char → Option (Option Nat × List Char)
  | 'n' :: 'u' :: 'l' :: 'l' :: r => some (none, r)
  | l =>
    match pNum l with
    | some (neg, ip, fe, r) =>
      if neg || fe || decide (2 ^ 64 ≤ ip) then none else some (some ip, r)
    | none => none

/-- Deserialize a JSON value into `Option<String>`: `null` or a string. -/
def pOptStr : List Char → Option (Option (List Char) × List Char)
  | 'n' :: 'u' :: 'l' :: 'l' :: r => some (none, r)
  | '"' :: r => (pStr r).map fun p => (some p.1, p.2)
  | _ => none

/-- Which of the four known fields have already been seen (serde's derived
deserializer rejects duplicates of known fields). -/
structure SeenTags where
  h : Bool := false
  r : Bool := false
  a : Bool := false
  t : Bool := false

mutual

/-- One `"key": value` pair of the `ConferenceTags` object, positioned at the
opening quote of the key.  Known keys deserialize into their field (duplicate
known keys are errors); unknown keys have their value validated and ignored. -/
def pTagsItem : Nat → ConferenceTags → SeenTags → List Char → Option (ConferenceTags × List Char)
  | 0, _, _, _ => none
  | fuel + 1, acc, seen, l =>
    match l with
    | '"' :: r => do
      let p ← pStr r
      match skipWs p.2 with
      | ':' :: r2 =>
        let v := skipWs r2
        if p.1 = ("handle_id".toList) then
          if seen.h then none
          else do
            let q ← pOptUsize v
            pTagsRest fuel { acc with handle_id := q.1 } { seen with h := true } q.2
        else if p.1 = ("rtc_id".toList) then
          if seen.r then none
          else do
            let q ← pOptStr v
            pTagsRest fuel { acc with rtc_id := q.1 } { seen with r := true } q.2
        else if p.1 = ("agent_id".toList) then
          if seen.a then none
          else do
            let q ← pOptStr v
            pTagsRest fuel { acc with agent_id := q.1 } { seen with a := true } q.2
        else if p.1 = ("transaction".toList) then
          if seen.t then none
          else do
            let q ← pOptStr v
            pTagsRest fuel { acc with transaction := q.1 } { seen with t := true } q.2
        else do
          let r3 ← pSkip (fuel + 1) v
          pTagsRest fuel acc seen r3
      | _ => none
    | _ => none

/-- After one pair: expect `,` and another pair, or the closing brace. -/
def pTagsRest : Nat → ConferenceTags → SeenTags → List Char → Option (ConferenceTags × List Char)
  | 0, _, _, _ => none
  | fuel + 1, acc, seen, l =>
    match skipWs l with
    | ',' :: r =>
      match skipWs r with
      | '"' :: r2 => pTagsItem fuel acc seen ('"' :: r2)
      | _ => none
    | '\x7d' :: r => some (acc, r)
    | _ => none

end

/-- `serde_json::from_str::<ConferenceTags>` (src/lib.rs line 120) on the
regex capture.  The capture always begins with `{`, so only the JSON-object
input form is modelled (serde would also accept an array-as-sequence, which
is unreachable here); trailing non-whitespace after the object is an error. -/
def parseConferenceTags (l : List Char) : Option ConferenceTags :=
  let fuel := 2 * l.length + 8
  match skipWs l with
  | '\x7b' :: r =>
    let body :=
      match skipWs r with
      | '\x7d' :: r2 => some (({} : ConferenceTags), r2)
      | l2 => pTagsItem fuel {} {} l2
    match body with
    | some (tags, rest) => if (skipWs rest).isEmpty then some tags else none
    | none => none
  | _ => none

/-- `struct CoreTags` (src/lib.rs lines 42-46). -/
structure CoreTags where
  handle_id : Option Nat := none
deriving DecidableEq

/-- `enum SourceWithTags` (src/lib.rs lines 34-40).  The `Unknown` variant
carries the diagnostic string built by the source's `format!` calls. -/
inductive SourceWithTags where
  | core (tags : CoreTags)
  | conference (tags : ConferenceTags)
  | unknown (logger_error : List Char)
deriving DecidableEq

/-- `struct Message` (src/lib.rs lines 60-64): a raw log line with its
microsecond timestamp (`i64`, modelled as `Int`). -/
structure Message where
  timestamp : Int
  line : List Char
deriving DecidableEq

/-- The assembled `JsonMessage` (src/lib.rs lines 25-32).  `ts` is the
rendered timestamp string. -/
structure JsonMessage where
  ts : List Char
  level : List Char
  source_with_tags : SourceWithTags
  msg : List Char
deriving DecidableEq

/-- `Message::extract_level` (src/lib.rs lines 100-111): try the literal
prefix `"[ERR] "`, then `"[WARN] "`, else INFO with the line unchanged. -/
def extract_level (line : List Char) : List Char × List Char :=
  if ("[ERR] ".toList).isPrefixOf line then
    ("ERRO".toList, line.drop 6)
  else if ("[WARN] ".toList).isPrefixOf line then
    ("WARN".toList, line.drop 7)
  else
    ("INFO".toList, line)

/-- The `CORE_HANDLE_ID_REGEX` capture (src/lib.rs lines 19-20,
`\A\[(\d+)\]`): a leading `[`, a nonempty maximal digit run, then `]`.
Returns the captured digit run. -/
def coreCapture (line : List Char) : Option (List Char) :=
  match line with
  | '[' :: r =>
    let ds := r.takeWhile Char.isDigit
    if ds.isEmpty then none
    else
      match r.drop ds.length with
      | ']' :: _ => some ds
      | _ => none
  | _ => none

/-- `Message::extract_core_tags` (src/lib.rs lines 135-154): if the regex
matches, parse the digits as `usize` (an error above `2^64 - 1`, surfaced
as the `"Failed to parse handle id"` diagnostic), then strip the prefix
`"[<id>] "` reconstructed from the parsed value if it is present. -/
def extract_core_tags (line : List Char) : Except (List Char) (CoreTags × List Char) :=
  match coreCapture line with
  | some ds =>
    if digitsToNat ds < 2 ^ 64 then
      let h := digitsToNat ds
      let pfx := '[' :: (Nat.toDigits 10 h ++ (']' :: ' ' :: []))
      let rest := if pfx.isPrefixOf line then line.drop pfx.length else line
      .ok ({ handle_id := some h }, rest)
    else
      .error ("Failed to parse handle id".toList)
  | none => .ok ({ handle_id := none }, line)

/-- Candidate end positions for the greedy group `(\{.*\})` of
`CONFERENCE_REGEX` (src/lib.rs lines 21-22, `\A\[CONFERENCE (\{.*\})\] (.+)`),
on the input `s` that follows the literal `[CONFERENCE ` marker:
position `j` is valid when `s` starts with `{`, `s[j] = '}'` is followed by
`"] "` and at least one further non-newline character, and the interior
`s[1..j]` contains no newline (`.` does not match `\n`). -/
def validJ (s : List Char) (j : Nat) : Bool :=
  decide (j < s.length) &&
  (s.getD 0 ' ' == '\x7b') &&
  (s.getD j ' ' == '\x7d') &&
  (s.getD (j + 1) ' ' == ']') &&
  (s.getD (j + 2) '_' == ' ') &&
  decide (j + 3 < s.length) &&
  (s.getD (j + 3) '\n' != '\n') &&
  ((s.take j).drop 1).all (fun c => c != '\n')

/-- Greedy matching: the group ends at the largest valid position
(leftmost-first regex semantics prefer the longest `.*`). -/
def maxValidJ (s : List Char) : Option Nat :=
  ((List.range s.length).filter (validJ s)).getLast?

/-- The two capture groups of `CONFERENCE_REGEX` when it matches: the
braced payload and the trailing message (group 2, `(.+)`, runs greedily to
the end of the line or the first newline). -/
def confSplit (line : List Char) : Option (List Char × List Char) :=
  if ("[CONFERENCE ".toList).isPrefixOf line then
    let s := line.drop 12
    match maxValidJ s with
    | some j => some (s.take (j + 1), (s.drop (j + 3)).takeWhile (fun c => c != '\n'))
    | none => none
  else none

/-- The diagnostic for a conference payload that fails to deserialize
(src/lib.rs line 121).  The source appends `serde_json`'s own error text
after the colon; that library-generated suffix is not modelled. -/
def confErrText (tags : List Char) : List Char :=
  ("Failed to parse conference tags '".toList) ++ tags ++ ("': ".toList)

/-- `Message::extract_source_with_tags` (src/lib.rs lines 113-133): try the
conference regex first, deserializing the captured payload (a failure is the
`Err` that becomes the `Unknown` classification); otherwise fall back to the
core grammar.  The source's `captures.get(1)` / `get(2)` error branches are
unreachable (both groups are mandatory in the pattern) and have no
counterpart in the model. -/
def extract_source_with_tags (line : List Char) :
    Except (List Char) (SourceWithTags × List Char) :=
  match confSplit line with
  | some (tags, rest) =>
    match parseConferenceTags tags with
    | some parsed => .ok (.conference parsed, rest)
    | none => .error (confErrText tags)
  | none =>
    match extract_core_tags line with
    | .ok (tags, rest) => .ok (.core tags, rest)
    | .error e => .error e

/-- `secs = self.timestamp / 1000000` (src/lib.rs line 95); Rust `i64`
division truncates toward zero. -/
def tsSecs (t : Int) : Int := Int.tdiv t 1000000

/-- `nsecs = self.timestamp % 1000000 * 1000` followed by the wrapping cast
`as u32` (src/lib.rs lines 96-97); Rust `%` takes the dividend's sign and
`as u32` reduces modulo `2^32`. -/
def tsNsecs (t : Int) : Int := Int.tmod t 1000000 * 1000 % 4294967296

/-- Domain on which `NaiveDateTime::from_timestamp(secs, nsecs)` returns
instead of panicking (chrono 0.4): the nanosecond count must be below
2_000_000_000 (values up to 1_999_999_999 encode leap seconds) and the
seconds must fall in chrono's calendar range. -/
def fromTimestampOk (secs nsecs : Int) : Bool :=
  decide (-8334632851200 ≤ secs) && decide (secs ≤ 8210298412799) &&
  decide (0 ≤ nsecs) && decide (nsecs < 2000000000)

/-- `Message::timestamp` (src/lib.rs lines 94-98): the validated instant as
a (seconds, nanoseconds) pair, `none` when chrono panics. -/
def Message.timestampUtc (m : Message) : Option (Int × Int) :=
  if fromTimestampOk (tsSecs m.timestamp) (tsNsecs m.timestamp) then
    some (tsSecs m.timestamp, tsNsecs m.timestamp)
  else none

/-- Decimal rendering of an integer (sign and digits). -/
def intDigits (i : Int) : List Char :=
  if i < 0 then '-' :: Nat.toDigits 10 i.natAbs else Nat.toDigits 10 i.natAbs

/-- Rendering of the validated instant as the `ts` string (src/lib.rs
line 75).  The source formats via `chrono` as RFC 3339 in the process-local
timezone; the local timezone is ambient state of the process, so the exact
text is modelled abstractly by an injective rendering of the instant.  No
claim depends on the text. -/
def renderTs (p : Int × Int) : List Char :=
  intDigits p.1 ++ ('.' :: intDigits p.2)

/-- `Message::to_json_message` (src/lib.rs lines 74-98).  `none` models the
panic of the timestamp conversion; otherwise exactly one `JsonMessage` is
assembled, with an `Err` from tag extraction becoming the `Unknown`
classification and the message text always trimmed. -/
def Message.to_json_message (m : Message) : Option JsonMessage :=
  match m.timestampUtc with
  | none => none
  | some p =>
    let ts := renderTs p
    let (level, rest) := extract_level m.line
    match extract_source_with_tags rest with
    | .ok (source_with_tags, rest2) =>
      some { ts := ts, level := level, source_with_tags := source_with_tags,
             msg := rustTrim rest2 }
    | .error err =>
      some { ts := ts, level := level, source_with_tags := .unknown err,
             msg := rustTrim rest }

/-- JSON values appearing in the serialized form of a `JsonMessage`, which
is always one flat object: every field value is a scalar (the source emits
only strings and unsigned integers).  `null` is representable so that its
absence from the output is a theorem, not a typing artifact. -/
inductive Jval where
  | jnull
  | jbool (b : Bool)
  | jnum (neg : Bool) (n : Nat)
  | jstr (s : List Char)
deriving DecidableEq

/-- The serde discriminant for `#[serde(tag = "source", rename_all =
"lowercase")]` (src/lib.rs line 35): the lowercased variant name. -/
def sourceName : SourceWithTags → List Char
  | .core _ => "core".toList
  | .conference _ => "conference".toList
  | .unknown _ => "unknown".toList

/-- The fields contributed by the flattened `source_with_tags` value:
the `source` tag, then the variant's own fields, each `None` skipped
(`skip_serializing_if = "Option::is_none"`, src/lib.rs lines 44, 50-57). -/
def sourceFields : SourceWithTags → List (List Char × Jval)
  | .core tags =>
    ("source".toList, .jstr ("core".toList)) ::
      (match tags.handle_id with
       | some h => [("handle_id".toList, .jnum false h)]
       | none => [])
  | .conference tags =>
    ("source".toList, .jstr ("conference".toList)) ::
      ((match tags.handle_id with
        | some h => [("handle_id".toList, .jnum false h)]
        | none => []) ++
       (match tags.rtc_id with
        | some s => [("rtc_id".toList, .jstr s)]
        | none => []) ++
       (match tags.agent_id with
        | some s => [("agent_id".toList, .jstr s)]
        | none => []) ++
       (match tags.transaction with
        | some s => [("transaction".toList, .jstr s)]
        | none => []))
  | .unknown e =>
    [("source".toList, .jstr ("unknown".toList)),
     ("logger_error".toList, .jstr e)]

/-- The serialized form of a `JsonMessage` (src/lib.rs lines 25-32):
`ts`, `level`, the flattened classification, then `msg`, in serde's
streaming order. -/
def serializeFields (jm : JsonMessage) : List (List Char × Jval) :=
  ("ts".toList, .jstr jm.ts) :: ("level".toList, .jstr jm.level) ::
    (sourceFields jm.source_with_tags ++ [("msg".toList, .jstr jm.msg)])

/-- serde_json's string escaping: quote, backslash, the five short control
escapes, `\u00XX` for other control characters, everything else verbatim. -/
def escChar (c : Char) : List Char :=
  if c == '"' then ['\\', '"']
  else if c == '\\' then ['\\', '\\']
  else if c == '\x08' then ['\\', 'b']
  else if c == '\t' then ['\\', 't']
  else if c == '\n' then ['\\', 'n']
  else if c == '\x0c' then ['\\', 'f']
  else if c == '\x0d' then ['\\', 'r']
  else if c.toNat < 0x20 then
    ['\\', 'u', '0', '0',
     (if c.toNat / 16 < 10 then Char.ofNat (48 + c.toNat / 16)
      else Char.ofNat (87 + c.toNat / 16)),
     (if c.toNat % 16 < 10 then Char.ofNat (48 + c.toNat % 16)
      else Char.ofNat (87 + c.toNat % 16))]
  else [c]

/-- Render one scalar JSON value. -/
def renderJval : Jval → List Char
  | .jnull => "null".toList
  | .jbool true => "true".toList
  | .jbool false => "false".toList
  | .jnum neg n => if neg then '-' :: Nat.toDigits 10 n else Nat.toDigits 10 n
  | .jstr s => '"' :: ((s.map escChar).flatten ++ ['"'])

/-- Render the key-value pairs of the emitted object, comma-separated. -/
def renderFieldList : List (List Char × Jval) → List Char
  | [] => []
  | [kv] => renderJval (.jstr kv.1) ++ (':' :: renderJval kv.2)
  | kv :: rest =>
    renderJval (.jstr kv.1) ++ (':' :: renderJval kv.2) ++ (',' :: renderFieldList rest)

/-- `serde_json::to_string(&json_message)` (src/lib.rs line 172): the
single-line JSON document for an assembled event.  Serialization of these
values cannot fail, so the result is always `some`; the worker model stays
parametric in the serializer to capture the source's `if let Ok` control
flow around a fallible call. -/
def serializeLine (jm : JsonMessage) : Option (List Char) :=
  some ('\x7b' :: (renderFieldList (serializeFields jm) ++ ['\x7d']))

/-- The emitted text for one raw message when its assembly succeeds
(helper for stating worker-level theorems; unreachable junk otherwise). -/
def renderMsg (m : Message) : List Char :=
  match m.to_json_message with
  | some jm => (serializeLine jm).getD []
  | none => []

/-- The Emission Worker loop (src/lib.rs lines 168-176), drained over the
finite sequence of messages the channel delivers before it closes, with the
serializer abstracted: per message, assemble (`to_json_message`; a panic
kills the thread, ending the loop with the remaining messages unprocessed —
modelled by the `true` flag), serialize, print on `Ok`, drop on `Err`.
Returns the emitted lines and whether the loop died by panic rather than by
the channel closing. -/
def workerRun (ser : JsonMessage → Option (List Char)) :
    List Message → List (List Char) × Bool
  | [] => ([], false)
  | m :: rest =>
    match m.to_json_message with
    | none => ([], true)
    | some jm =>
      match ser jm with
      | some s =>
        let out := workerRun ser rest
        (s :: out.1, out.2)
      | none => workerRun ser rest

/-- The ingestion channel (`crossbeam_channel::unbounded`, src/lib.rs
line 166): a FIFO queue plus whether the consumer side is gone (receiver
dropped), in which case `send` fails. -/
structure ChannelState where
  queue : List Message
  closed : Bool
deriving DecidableEq

/-- `Sender::send` (crossbeam): enqueue unless the receiver is gone;
returns the new state and whether the send succeeded. -/
def sendMsg (st : ChannelState) (m : Message) : ChannelState × Bool :=
  if st.closed then (st, false)
  else ({ st with queue := st.queue ++ [m] }, true)

/-- `JanusConferenceLogger::incoming_logline` (src/lib.rs lines 181-183):
`let _result = self.tx.send(Message::new(timestamp, line));` — the send
result is discarded; the host-visible return value is always `()`. -/
def incoming_logline (st : ChannelState) (timestamp : Int) (line : List Char) :
    ChannelState × PUnit :=
  ((sendMsg st { timestamp := timestamp, line := line }).1, PUnit.unit)

deriving instance DecidableEq for Except

/-- Spec-side predicate: the line begins with a bracketed nonempty decimal
digit run, `[ds]`, as in the Core grammar of the spec. -/
def beginsWithBracketNum (line : List Char) : Prop :=
  ∃ ds rest, ds ≠ [] ∧ (∀ c ∈ ds, c.isDigit = true) ∧ line = '[' :: (ds ++ ']' :: rest)

/-- Spec-side predicate: the message text contains, at position `k`, the
pattern `"\x7d] "` followed by at least one further character — exactly the
situation in which the greedy conference capture extends into the message. -/
def lateBraceAt (msg : List Char) (k : Nat) : Bool :=
  (msg.getD k ' ' == '\x7d') && (msg.getD (k + 1) ' ' == ']') &&
  (msg.getD (k + 2) '_' == ' ') && decide (k + 3 < msg.length)

/-- Whether any such pattern occurs in the message. -/
def hasLateBrace (msg : List Char) : Bool :=
  (List.range msg.length).any (lateBraceAt msg)

/-- Spec-side characterization of when the pipeline classifies a line as
`Unknown`: either the conference regex matched and the captured payload does
not deserialize, or the conference regex did not match, the core regex
matched, and the captured digits overflow `usize`. -/
def unknownCond (line : List Char) : Bool :=
  match confSplit line with
  | some (tags, _) => (parseConferenceTags tags).isNone
  | none =>
    match coreCapture line with
    | some ds => decide (2 ^ 64 ≤ digitsToNat ds)
    | none => false

/-- Whether tag extraction produced the `Err` that `to_json_message` turns
into the `Unknown` classification. -/
def isUnknownResult (r : Except (List Char) (SourceWithTags × List Char)) : Bool :=
  match r with
  | .error _ => true
  | .ok _ => false

/-- `takeWhile` over a list all of whose elements pass the test keeps the
list, provided it is followed by a failing element or nothing. -/
theorem takeWhile_append_not (p : Char → Bool) (l1 l2 : List Char)
    (h1 : ∀ c ∈ l1, p c = true) (h2 : ∀ c r, l2 = c :: r → p c = false) :
    (l1 ++ l2).takeWhile p = l1 := by
  induction l1 with
  | nil =>
    cases l2 with
    | nil => rfl
    | cons c r => simp [List.takeWhile, h2 c r rfl]
  | cons a l ih =>
    have ha : p a = true := h1 a (by simp)
    simp only [List.cons_append, List.takeWhile, ha]
    show a :: List.takeWhile p (l ++ l2) = a :: l
    rw [ih (fun c hc => h1 c (by simp [hc]))]

/-- The last element of `filter P (range n)` is the largest valid index. -/
theorem getLast_filter_range (P : Nat → Bool) (n j0 : Nat) (hj : j0 < n)
    (hP : P j0 = true) (hmax : ∀ j, j0 < j → P j = false) :
    ((List.range n).filter P).getLast? = some j0 := by
  obtain ⟨m, rfl⟩ : ∃ m, n = (j0 + 1) + m := ⟨n - (j0 + 1), by omega⟩
  rw [List.range_add, List.filter_append, List.range_succ, List.filter_append]
  have h1 : List.filter P [j0] = [j0] := by simp [hP]
  have h2 : List.filter P ((List.range m).map fun x => j0 + 1 + x) = [] := by
    rw [List.filter_eq_nil_iff]
    intro a ha
    obtain ⟨x, -, rfl⟩ := List.mem_map.mp ha
    simp [hmax (j0 + 1 + x) (by omega)]
  rw [h1, h2, List.append_nil, List.getLast?_append]
  rfl

/-- C3.  Level extraction checks the literal prefix `"[ERR] "` first
(severity string `"ERRO"`, remainder the suffix after the prefix), then
`"[WARN] "` (severity `"WARN"`), and otherwise yields `"INFO"` with the
remainder equal to the entire line unchanged; matching is case-sensitive
and exact, so `"[ERROR] x"` does not match `"[ERR] "` and falls to INFO. -/
theorem c3_level_extraction :
    (∀ r : List Char, extract_level (("[ERR] ".toList) ++ r) = ("ERRO".toList, r)) ∧
    (∀ r : List Char, extract_level (("[WARN] ".toList) ++ r) = ("WARN".toList, r)) ∧
    (∀ line : List Char, ¬ ("[ERR] ".toList) <+: line → ¬ ("[WARN] ".toList) <+: line →
      extract_level line = ("INFO".toList, line)) ∧
    extract_level ("[ERROR] x".toList) = ("INFO".toList, "[ERROR] x".toList) := by
  refine ⟨fun r => ?_, fun r => ?_, fun line h1 h2 => ?_, by decide⟩
  · have h : ("[ERR] ".toList) <+: (("[ERR] ".toList) ++ r) := List.prefix_append _ _
    simp [extract_level, h]
  · have h2 : ("[WARN] ".toList) <+: (("[WARN] ".toList) ++ r) := List.prefix_append _ _
    have h1 : ¬ ("[ERR] ".toList) <+: (("[WARN] ".toList) ++ r) := by
      intro hc
      obtain ⟨t, ht⟩ := hc
      exact absurd (congrArg (fun l => l.get? 1) ht) (by simp)
    simp [extract_level, h1, h2]
  · rw [extract_level]
    rw [if_neg (by simpa using h1), if_neg (by simpa using h2)]

/-- C3 witness: the theorem applied at the concrete inputs of the spec's
test vectors. -/
theorem c3_level_extraction_witness :
    extract_level ("[ERR] boom".toList) = ("ERRO".toList, "boom".toList) ∧
    extract_level ("[WARN] careful".toList) = ("WARN".toList, "careful".toList) ∧
    extract_level ("plain text".toList) = ("INFO".toList, "plain text".toList) := by
  refine ⟨?_, ?_, ?_⟩
  · exact c3_level_extraction.1 ("boom".toList)
  · exact c3_level_extraction.2.1 ("careful".toList)
  · exact c3_level_extraction.2.2.1 ("plain text".toList)
      (by intro h; obtain ⟨t, ht⟩ := h; exact absurd (congrArg (fun l => l.get? 0) ht) (by simp))
      (by intro h; obtain ⟨t, ht⟩ := h; exact absurd (congrArg (fun l => l.get? 0) ht) (by simp))

/-- The core regex capture on a line of the shape `[ds]rest` is exactly the
digit run `ds`. -/
theorem coreCapture_bracket (ds rest : List Char) (hne : ds ≠ [])
    (hdig : ∀ c ∈ ds, c.isDigit = true) :
    coreCapture ('[' :: (ds ++ ']' :: rest)) = some ds := by
  have htw : (ds ++ ']' :: rest).takeWhile Char.isDigit = ds :=
    takeWhile_append_not Char.isDigit ds (']' :: rest) hdig
      (by intro c r h; cases h; decide)
  have hdrop : (ds ++ ']' :: rest).drop ds.length = ']' :: rest := List.drop_left _ _
  simp only [coreCapture, htw, hdrop]
  simp [hne]

/-- If the core regex matches, the line has the bracketed-digits shape. -/
theorem coreCapture_shape (line ds : List Char) (h : coreCapture line = some ds) :
    ds ≠ [] ∧ (∀ c ∈ ds, c.isDigit = true) ∧
      ∃ rest, line = '[' :: (ds ++ ']' :: rest) := by
  rw [coreCapture.eq_def] at h
  split at h
  next r =>
    simp only [] at h
    by_cases he : (r.takeWhile Char.isDigit).isEmpty
    · simp [he] at h
    · rw [if_neg (by simp [he])] at h
      split at h
      next tail heq =>
        injection h with h
        subst h
        set tw := r.takeWhile Char.isDigit with htw
        obtain ⟨s, hs⟩ := List.takeWhile_prefix (l := r) (p := Char.isDigit)
        have hdrop : r.drop tw.length = s := by
          rw [← hs]; exact List.drop_left _ _
        have hseq : s = ']' :: tail := hdrop.symm.trans heq
        refine ⟨by simpa [List.isEmpty_iff] using he, ?_, tail, ?_⟩
        · intro c hc
          rw [htw] at hc
          exact List.mem_takeWhile_imp hc
        · rw [← hs, hseq]
      next hno => exact absurd h (by simp)
  next => exact absurd h (by simp)

/-- C4 (amended).  Core grammar: for every remainder beginning with a
bracketed decimal integer whose value fits in an unsigned 64-bit integer,
the integer is captured as `handle_id` and the literal prefix reconstructed
from the parsed integer (e.g. `"[42] "`, not the raw captured text) is
stripped from the remainder if present; for every remainder not beginning
with a bracketed decimal integer there is no handle_id and the remainder is
unchanged.  (The unamended claim fails when the digits overflow `usize`:
see the counterexample.) -/
theorem c4_core_grammar :
    (∀ ds rest : List Char, ds ≠ [] → (∀ c ∈ ds, c.isDigit = true) →
      digitsToNat ds < 2 ^ 64 →
      extract_core_tags ('[' :: (ds ++ ']' :: rest)) =
        .ok ({ handle_id := some (digitsToNat ds) },
          let pfx := '[' :: (Nat.toDigits 10 (digitsToNat ds) ++ (']' :: ' ' :: []))
          if pfx.isPrefixOf ('[' :: (ds ++ ']' :: rest))
          then ('[' :: (ds ++ ']' :: rest)).drop pfx.length
          else '[' :: (ds ++ ']' :: rest))) ∧
    (∀ line : List Char, ¬ beginsWithBracketNum line →
      extract_core_tags line = .ok ({ handle_id := none }, line)) := by
  constructor
  · intro ds rest hne hdig hlt
    simp only [extract_core_tags, coreCapture_bracket ds rest hne hdig]
    rw [if_pos hlt]
  · intro line h
    cases hcc : coreCapture line with
    | some ds =>
      obtain ⟨hne, hdig, rest, hshape⟩ := coreCapture_shape line ds hcc
      exact absurd ⟨ds, rest, hne, hdig, hshape⟩ h
    | none => simp [extract_core_tags, hcc]

/-- C4 counterexample: a line beginning with a bracketed decimal integer
(the 20-digit value `2^64`) for which the integer is not captured as
`handle_id`; the source instead returns the handle-id parse error, which
surfaces as the `Unknown` classification. -/
theorem c4_core_grammar_counterexample :
    beginsWithBracketNum ("[18446744073709551616] y".toList) ∧
    extract_core_tags ("[18446744073709551616] y".toList) =
      .error ("Failed to parse handle id".toList) := by
  constructor
  · exact ⟨"18446744073709551616".toList, " y".toList, by decide, by decide, by decide⟩
  · decide

/-- C4 witness: the amended theorem applied at the spec's test vectors
`"[42] connecting"` and `"no brackets here"`. -/
theorem c4_core_grammar_witness :
    extract_core_tags ("[42] connecting".toList) =
      .ok ({ handle_id := some 42 }, "connecting".toList) ∧
    extract_core_tags ("no brackets here".toList) =
      .ok ({ handle_id := none }, "no brackets here".toList) := by
  constructor
  · exact (c4_core_grammar.1 ("42".toList) (" connecting".toList)
      (by decide) (by decide) (by decide)).trans (by decide)
  · refine c4_core_grammar.2 ("no brackets here".toList) ?_
    rintro ⟨ds, rest, hne, hdig, heq⟩
    simp at heq

/-- C2 (amended).  The `Unknown` classification is selected exactly when
either (a) the line carries a CONFERENCE-tagged payload that exists (the
conference regex matches) but the captured payload fails to deserialize, or
(b) the conference regex does not match, the core bracketed-integer regex
does match, and the captured digits overflow `usize`.  (The unamended claim
— never `Unknown` without a conference match — fails in case (b): see the
counterexample.) -/
theorem c2_unknown_characterization :
    ∀ line : List Char,
      isUnknownResult (extract_source_with_tags line) = unknownCond line := by
  intro line
  cases hcs : confSplit line with
  | some p =>
    obtain ⟨tags, rest⟩ := p
    simp only [extract_source_with_tags, unknownCond, hcs]
    cases hp : parseConferenceTags tags <;> simp [isUnknownResult]
  | none =>
    simp only [extract_source_with_tags, unknownCond, hcs]
    cases hcc : coreCapture line with
    | some ds =>
      simp only [extract_core_tags, hcc]
      by_cases hlt : digitsToNat ds < 2 ^ 64
      · rw [if_pos hlt]
        simp [isUnknownResult, decide_eq_false_iff_not]
        omega
      · rw [if_neg hlt]
        simp [isUnknownResult, decide_eq_true_eq]
        omega
    | none => simp [extract_core_tags, hcc, isUnknownResult]

/-- C2 counterexample: a line whose remainder does not match the conference
prefix grammar (the conference regex does not match) yet is classified
`Unknown`, because its bracketed digits (`2^64 + 1`) overflow `usize`. -/
theorem c2_unknown_characterization_counterexample :
    confSplit ("[18446744073709551617] z".toList) = none ∧
    isUnknownResult (extract_source_with_tags ("[18446744073709551617] z".toList)) = true ∧
    (Message.to_json_message { timestamp := 1, line := "[18446744073709551617] z".toList }).map
        (fun jm => jm.source_with_tags) =
      some (.unknown ("Failed to parse handle id".toList)) := by
  refine ⟨by decide, by decide, by decide⟩

/-- A message whose timestamp converts assembles to exactly one event. -/
theorem to_json_message_isSome (m : Message) (h : m.timestampUtc.isSome = true) :
    m.to_json_message.isSome = true := by
  rw [Message.to_json_message]
  obtain ⟨p, hp⟩ := Option.isSome_iff_exists.mp h
  rw [hp]
  cases hs : extract_source_with_tags (extract_level m.line).2 <;> simp [hs]

/-- C1 (amended).  For every nonnegative `i64` timestamp up to
8210298412799999999 microseconds (the largest value whose seconds fit
chrono's calendar range) and every input line, `to_json_message` is total
and deterministic: it produces exactly one event and never panics.  (The
unamended claim — totality over all `i64` including negatives — fails: for
negative timestamps that are not multiples of 10^6 the `as u32` cast wraps
the negative subsecond count to an invalid nanosecond value and
`NaiveDateTime::from_timestamp` panics, and for very large positive
timestamps the seconds leave chrono's range: see the counterexample.) -/
theorem c1_total_conversion (t : Int) (line : List Char)
    (h0 : 0 ≤ t) (h1 : t ≤ 8210298412799999999) :
    (Message.to_json_message { timestamp := t, line := line }).isSome = true := by
  apply to_json_message_isSome
  obtain ⟨n, rfl⟩ := Int.eq_ofNat_of_zero_le h0
  have hn : n ≤ 8210298412799999999 := by exact_mod_cast h1
  have hsecs : tsSecs ((n : Nat) : Int) = ((n / 1000000 : Nat) : Int) := rfl
  have hmod : Int.tmod ((n : Nat) : Int) 1000000 = ((n % 1000000 : Nat) : Int) := rfl
  have hnsecs : tsNsecs ((n : Nat) : Int) = ((n % 1000000 * 1000 : Nat) : Int) := by
    rw [tsNsecs, hmod]
    omega
  have hok : fromTimestampOk (tsSecs ((n : Nat) : Int)) (tsNsecs ((n : Nat) : Int)) = true := by
    rw [hsecs, hnsecs, fromTimestampOk]
    have hd : n / 1000000 ≤ 8210298412799 := by omega
    have hm : n % 1000000 * 1000 < 2000000000 := by
      have : n % 1000000 < 1000000 := Nat.mod_lt _ (by norm_num)
      omega
    simp only [Bool.and_eq_true, decide_eq_true_eq]
    refine ⟨⟨⟨?_, ?_⟩, ?_⟩, ?_⟩ <;> omega
  simp only [Message.timestampUtc, hok]
  rfl

/-- C1 witness: the amended theorem applied at the Unix epoch. -/
theorem c1_total_conversion_witness :
    (Message.to_json_message { timestamp := 0, line := "hello".toList }).isSome = true :=
  c1_total_conversion 0 ("hello".toList) (by decide) (by decide)

/-- C1 counterexample: `to_json_message` is not total over all `i64`
timestamps — at `-1` microseconds the wrapped nanosecond count is
4294966296 (≥ 2·10^9) and chrono panics; at `i64::MAX` the seconds exceed
chrono's calendar range and it panics as well. -/
theorem c1_total_conversion_counterexample :
    Message.to_json_message { timestamp := -1, line := "boom".toList } = none ∧
    tsNsecs (-1) = 4294966296 ∧
    Message.to_json_message { timestamp := 9223372036854775807, line := "boom".toList } = none := by
  refine ⟨by decide, by decide, by decide⟩

/-- C10.  The conference payload capture is greedy up to the last
occurrence of `"\x7d] "` followed by at least one character: on the witness
line `"[CONFERENCE \x7b\"a\":1\x7d] x \x7d] y"` the captured payload is
`"\x7b\"a\":1\x7d] x \x7d"` — extending past the first closing brace — it
fails to deserialize as `ConferenceTags` although its well-formed prefix
`"\x7b\"a\":1\x7d"` would, and the line is classified `Unknown` instead of
`Conference`. -/
theorem c10_greedy_capture :
    confSplit ("[CONFERENCE \x7b\"a\":1\x7d] x \x7d] y".toList) =
      some ("\x7b\"a\":1\x7d] x \x7d".toList, "y".toList) ∧
    parseConferenceTags ("\x7b\"a\":1\x7d] x \x7d".toList) = none ∧
    parseConferenceTags ("\x7b\"a\":1\x7d".toList) = some {} ∧
    extract_source_with_tags ("[CONFERENCE \x7b\"a\":1\x7d] x \x7d] y".toList) =
      .error (confErrText ("\x7b\"a\":1\x7d] x \x7d".toList)) := by
  refine ⟨by decide, by decide, by decide, by decide⟩

/-- C5 counterexample: a remainder that begins with `"[CONFERENCE "`, a
JSON object literal (`"\x7b\"b\":2\x7d"`, which alone deserializes fine)
and a closing `"] "`, yet is classified `Unknown` rather than `Conference`,
because the greedy capture extends to the later `"\x7d] "` inside the
message text. -/
theorem c5_conference_grammar_counterexample :
    parseConferenceTags ("\x7b\"b\":2\x7d".toList) = some {} ∧
    isUnknownResult
      (extract_source_with_tags ("[CONFERENCE \x7b\"b\":2\x7d] m \x7d] n".toList)) = true := by
  refine ⟨by decide, by decide⟩

/-- C5 (amended).  Conference grammar: for every remainder beginning with
the literal `"[CONFERENCE "` followed by a JSON object literal and a
closing `"] "`, provided the line contains no newline, the message is
nonempty, and the message text contains no later occurrence of `"\x7d] "`
followed by a character (so the greedy capture stops at the object's
closing brace), the classification is `Conference` with the object parsed
as a `ConferenceTags` record and the rest of the line as the message.
(Without the no-later-`"\x7d] "` proviso the unamended claim fails: see the
counterexample.) -/
theorem c5_conference_grammar (objMid msg : List Char) (tags : ConferenceTags)
    (hparse : parseConferenceTags ('\x7b' :: (objMid ++ ['\x7d'])) = some tags)
    (hobj_nl : ∀ c ∈ objMid, c ≠ '\n')
    (hmsg_nl : ∀ c ∈ msg, c ≠ '\n')
    (hne : msg ≠ [])
    (hlate : hasLateBrace msg = false) :
    extract_source_with_tags
        (("[CONFERENCE ".toList) ++ ('\x7b' :: (objMid ++ ['\x7d'])) ++ (']' :: ' ' :: msg)) =
      .ok (.conference tags, msg) := by
  set obj : List Char := '\x7b' :: (objMid ++ ['\x7d']) with hobj
  set s : List Char := obj ++ (']' :: ' ' :: msg) with hs
  set line : List Char := ("[CONFERENCE ".toList) ++ s with hline
  have hassoc : (("[CONFERENCE ".toList) ++ obj) ++ (']' :: ' ' :: msg) = line := by
    rw [hline, List.append_assoc]
  rw [hassoc]
  set j0 : Nat := objMid.length + 1 with hj0
  set A : List Char := '\x7b' :: objMid with hA
  have hAlen : A.length = j0 := by simp [hA, hj0]
  have hsA : s = A ++ ('\x7d' :: ']' :: ' ' :: msg) := by
    rw [hs, hobj, hA]
    simp
  have hobjlen : obj.length = j0 + 1 := by simp [hobj, hj0]
  have hslen : s.length = j0 + 3 + msg.length := by
    rw [hsA]
    simp only [List.length_append, List.length_cons, hAlen]
    omega
  have hgetright : ∀ (i : Nat) (d : Char),
      s.getD (j0 + i) d = ('\x7d' :: ']' :: ' ' :: msg).getD i d := by
    intro i d
    rw [hsA, List.getD_append_right _ _ _ _ (by omega)]
    congr 1
    omega
  have hmget : ∀ (i : Nat) (d : Char), s.getD (j0 + 3 + i) d = msg.getD i d := by
    intro i d
    have h := hgetright (3 + i) d
    rw [show j0 + (3 + i) = j0 + 3 + i by omega] at h
    rw [h, show 3 + i = i + 2 + 1 by omega, List.getD_cons_succ,
      show i + 2 = i + 1 + 1 from rfl, List.getD_cons_succ, List.getD_cons_succ]
  obtain ⟨m0, mtail, rfl⟩ : ∃ m0 mtail, msg = m0 :: mtail := by
    cases msg with
    | nil => exact absurd rfl hne
    | cons a b => exact ⟨a, b, rfl⟩
  have hmlen : (m0 :: mtail).length = mtail.length + 1 := rfl
  have hvalid : validJ s j0 = true := by
    have h0 : s.getD 0 ' ' = '\x7b' := by rw [hs, hobj]; rfl
    have hj : s.getD j0 ' ' = '\x7d' := by
      have h := hgetright 0 ' '
      rw [show j0 + 0 = j0 from rfl] at h
      rw [h]; simp
    have hj1 : s.getD (j0 + 1) ' ' = ']' := by rw [hgetright 1 ' ']; simp
    have hj2 : s.getD (j0 + 2) '_' = ' ' := by rw [hgetright 2 '_']; simp
    have hj3 : s.getD (j0 + 3) '\n' = m0 := by
      have h := hmget 0 '\n'
      rw [show j0 + 3 + 0 = j0 + 3 from rfl] at h
      rw [h]; simp
    have hmid : (s.take j0).drop 1 = objMid := by
      rw [hsA, ← hAlen, List.take_left, hA]
      simp
    simp only [validJ, Bool.and_eq_true, beq_iff_eq, bne_iff_ne, decide_eq_true_eq]
    refine ⟨⟨⟨⟨⟨⟨⟨by rw [hslen]; omega, h0⟩, hj⟩, hj1⟩, hj2⟩, by rw [hslen]; omega⟩, by
      rw [hj3]; exact hmsg_nl m0 (by simp)⟩, ?_⟩
    rw [hmid, List.all_eq_true]
    intro c hc
    simpa using hobj_nl c hc
  have hmax : ∀ j, j0 < j → validJ s j = false := by
    intro j hj
    by_contra hne'
    have hv : validJ s j = true := by
      revert hne'; cases validJ s j <;> simp
    simp only [validJ, Bool.and_eq_true, beq_iff_eq, bne_iff_ne, decide_eq_true_eq] at hv
    obtain ⟨⟨⟨⟨⟨⟨⟨hjlt, -⟩, hbr⟩, hb1⟩, hb2⟩, hj3lt⟩, -⟩, -⟩ := hv
    rw [hslen] at hjlt hj3lt
    rcases Nat.lt_or_ge j (j0 + 3) with hcase | hcase
    · rcases Nat.lt_or_ge j (j0 + 2) with hcase2 | hcase2
      · have hje : j = j0 + 1 := by omega
        subst hje
        rw [hgetright 1 ' '] at hbr
        simp at hbr
      · have hje : j = j0 + 2 := by omega
        subst hje
        rw [hgetright 2 ' '] at hbr
        simp at hbr
    · obtain ⟨k, rfl⟩ : ∃ k, j = j0 + 3 + k := ⟨j - (j0 + 3), by omega⟩
      rw [hmget k ' '] at hbr
      rw [show j0 + 3 + k + 1 = j0 + 3 + (k + 1) by omega, hmget (k + 1) ' '] at hb1
      rw [show j0 + 3 + k + 2 = j0 + 3 + (k + 2) by omega, hmget (k + 2) '_'] at hb2
      have hk3 : k + 3 < (m0 :: mtail).length := by omega
      have hat : lateBraceAt (m0 :: mtail) k = true := by
        simp only [lateBraceAt, Bool.and_eq_true, beq_iff_eq, decide_eq_true_eq]
        exact ⟨⟨⟨hbr, hb1⟩, hb2⟩, hk3⟩
      exact List.any_eq_false.mp hlate k (List.mem_range.mpr (by omega)) hat
  have hmaxJ : maxValidJ s = some j0 :=
    getLast_filter_range (validJ s) s.length j0 (by rw [hslen]; omega) hvalid hmax
  have hpre : (("[CONFERENCE ".toList).isPrefixOf line) = true :=
    List.isPrefixOf_iff_prefix.mpr (List.prefix_append _ _)
  have hdrop12 : line.drop 12 = s := by
    rw [hline, show (12 : Nat) = ("[CONFERENCE ".toList).length from rfl]
    exact List.drop_left _ _
  have htake : s.take (j0 + 1) = obj := by
    rw [← hobjlen, hs]
    exact List.take_left _ _
  have hdropj : s.drop (j0 + 3) = m0 :: mtail := by
    have h2 : s.drop (j0 + 1) = ']' :: ' ' :: m0 :: mtail := by
      rw [← hobjlen, hs]
      exact List.drop_left _ _
    have h3 : s.drop (j0 + 3) = (s.drop (j0 + 1)).drop 2 := by
      rw [List.drop_drop]
    rw [h3, h2]
    simp
  have htw : (m0 :: mtail).takeWhile (fun c => c != '\n') = m0 :: mtail := by
    rw [List.takeWhile_eq_self_iff]
    intro c hc
    simpa using hmsg_nl c hc
  have hconf : confSplit line = some (obj, m0 :: mtail) := by
    rw [confSplit, if_pos hpre]
    simp only [hdrop12, hmaxJ, htake, hdropj, htw]
  rw [extract_source_with_tags.eq_def, hconf]
  simp only [hparse]

/-- C5 witness: the amended theorem applied at the spec's test vector
`"[CONFERENCE \x7b\"rtc_id\":\"abc\"\x7d] joined"`. -/
theorem c5_conference_grammar_witness :
    extract_source_with_tags ("[CONFERENCE \x7b\"rtc_id\":\"abc\"\x7d] joined".toList) =
      .ok (.conference { rtc_id := some ("abc".toList) }, "joined".toList) := by
  have h := c5_conference_grammar ("\"rtc_id\":\"abc\"".toList) ("joined".toList)
    { rtc_id := some ("abc".toList) }
    (by decide) (by decide) (by decide) (by decide) (by decide)
  exact h

/-- The level string is always one of the three literals. -/
theorem extract_level_cases (line : List Char) :
    (extract_level line).1 = "ERRO".toList ∨ (extract_level line).1 = "WARN".toList ∨
      (extract_level line).1 = "INFO".toList := by
  unfold extract_level
  split_ifs <;> simp

/-- An assembled event's level is the extracted level of its line. -/
theorem to_json_message_level (m : Message) (jm : JsonMessage)
    (h : m.to_json_message = some jm) : jm.level = (extract_level m.line).1 := by
  rw [Message.to_json_message] at h
  cases ht : m.timestampUtc with
  | none => rw [ht] at h; exact absurd h (by simp)
  | some p =>
    rw [ht] at h
    simp only [] at h
    cases hs : extract_source_with_tags (extract_level m.line).2 <;> rw [hs] at h <;>
      injection h with h <;> rw [← h]

/-- The keys contributed by an optional field: one if present, none if
absent. -/
def optKey {α : Type} (o : Option α) (k : List Char) : List (List Char) :=
  match o with
  | some _ => [k]
  | none => []

/-- Membership in an optional field's key list forces the key and the
field's presence. -/
theorem mem_optKey {α : Type} (o : Option α) (k a : List Char)
    (h : a ∈ optKey o k) : a = k ∧ o.isSome = true := by
  cases o <;> simp [optKey] at h ⊢
  exact h

/-- The key list of the flattened conference variant. -/
theorem sourceFields_keys_conference (cf : ConferenceTags) :
    (sourceFields (.conference cf)).map Prod.fst =
      ("source".toList) ::
        (optKey cf.handle_id ("handle_id".toList) ++ optKey cf.rtc_id ("rtc_id".toList) ++
         optKey cf.agent_id ("agent_id".toList) ++ optKey cf.transaction ("transaction".toList)) := by
  rcases cf with ⟨h1, h2, h3, h4⟩
  cases h1 <;> cases h2 <;> cases h3 <;> cases h4 <;> rfl

/-- The key list of the flattened core variant. -/
theorem sourceFields_keys_core (ct : CoreTags) :
    (sourceFields (.core ct)).map Prod.fst =
      ("source".toList) :: optKey ct.handle_id ("handle_id".toList) := by
  rcases ct with ⟨h⟩
  cases h <;> rfl

/-- Every key of the serialized form is `ts`, `level`, `msg`, or one of the
flattened classification's keys. -/
theorem key_in_serializeFields (jm : JsonMessage) (k : List Char)
    (hk : k ∈ (serializeFields jm).map Prod.fst) :
    k = "ts".toList ∨ k = "level".toList ∨
      k ∈ (sourceFields jm.source_with_tags).map Prod.fst ∨ k = "msg".toList := by
  simp only [serializeFields, List.map_cons, List.map_append, List.mem_cons,
    List.mem_append, List.map_cons, List.mem_singleton] at hk
  rcases hk with h | h | h | h
  · exact Or.inl h
  · exact Or.inr (Or.inl h)
  · exact Or.inr (Or.inr (Or.inl h))
  · exact Or.inr (Or.inr (Or.inr (by simpa using h)))

/-- Every key of the flattened conference variant is `source` or a present
field's key. -/
theorem key_in_conference (cf : ConferenceTags) (k : List Char)
    (hk : k ∈ (sourceFields (.conference cf)).map Prod.fst) :
    k = "source".toList ∨
      (k = "handle_id".toList ∧ cf.handle_id.isSome = true) ∨
      (k = "rtc_id".toList ∧ cf.rtc_id.isSome = true) ∨
      (k = "agent_id".toList ∧ cf.agent_id.isSome = true) ∨
      (k = "transaction".toList ∧ cf.transaction.isSome = true) := by
  rw [sourceFields_keys_conference] at hk
  rcases List.mem_cons.mp hk with h | h
  · exact Or.inl h
  · rcases List.mem_append.mp h with h' | h'
    · rcases List.mem_append.mp h' with h'' | h''
      · rcases List.mem_append.mp h'' with h3 | h3
        · exact Or.inr (Or.inl (mem_optKey _ _ _ h3))
        · exact Or.inr (Or.inr (Or.inl (mem_optKey _ _ _ h3)))
      · exact Or.inr (Or.inr (Or.inr (Or.inl (mem_optKey _ _ _ h''))))
    · exact Or.inr (Or.inr (Or.inr (Or.inr (mem_optKey _ _ _ h'))))

/-- C6.  For every assembled event, the serialized form carries the
classification flattened at top level under a `source` discriminant whose
value is the lowercased variant name (`core`, `conference`, or `unknown`);
the `level` field is one of `"ERRO"`, `"WARN"`, `"INFO"`; no emitted field
is ever JSON `null`; and every absent optional field is omitted entirely
(its key does not occur in the serialized form). -/
theorem c6_serialization (m : Message) (jm : JsonMessage)
    (h : m.to_json_message = some jm) :
    ((serializeFields jm).lookup ("source".toList) =
        some (.jstr (sourceName jm.source_with_tags))) ∧
    (sourceName jm.source_with_tags = "core".toList ∨
      sourceName jm.source_with_tags = "conference".toList ∨
      sourceName jm.source_with_tags = "unknown".toList) ∧
    (jm.level = "ERRO".toList ∨ jm.level = "WARN".toList ∨ jm.level = "INFO".toList) ∧
    (∀ kv ∈ serializeFields jm, kv.2 ≠ .jnull) ∧
    (∀ ct, jm.source_with_tags = .core ct → ct.handle_id = none →
      ("handle_id".toList) ∉ (serializeFields jm).map Prod.fst) ∧
    (∀ cf, jm.source_with_tags = .conference cf →
      (cf.handle_id = none → ("handle_id".toList) ∉ (serializeFields jm).map Prod.fst) ∧
      (cf.rtc_id = none → ("rtc_id".toList) ∉ (serializeFields jm).map Prod.fst) ∧
      (cf.agent_id = none → ("agent_id".toList) ∉ (serializeFields jm).map Prod.fst) ∧
      (cf.transaction = none → ("transaction".toList) ∉ (serializeFields jm).map Prod.fst)) := by
  obtain ⟨ts, level, swt, msg⟩ := jm
  refine ⟨?_, ?_, ?_, ?_, ?_, ?_⟩
  · cases swt <;> rfl
  · cases swt <;> simp [sourceName]
  · have := to_json_message_level m _ h
    simp only [] at this
    rw [this]
    exact extract_level_cases m.line
  · intro kv hkv
    rcases swt with ct | cf | e
    · rcases ct with ⟨hid⟩
      cases hid <;>
        (simp only [serializeFields, sourceFields, List.cons_append, List.nil_append,
           List.singleton_append, List.append_nil] at hkv; fin_cases hkv <;> simp)
    · rcases cf with ⟨h1, h2, h3, h4⟩
      cases h1 <;> cases h2 <;> cases h3 <;> cases h4 <;>
        (simp only [serializeFields, sourceFields, List.cons_append, List.nil_append,
           List.singleton_append, List.append_nil] at hkv; fin_cases hkv <;> simp)
    · simp only [serializeFields, sourceFields, List.cons_append, List.nil_append,
        List.singleton_append, List.append_nil] at hkv
      fin_cases hkv <;> simp
  · rintro ct rfl hnone hmem
    rcases key_in_serializeFields _ _ hmem with h1 | h1 | h1 | h1
    · exact absurd h1 (by decide)
    · exact absurd h1 (by decide)
    · rw [sourceFields_keys_core] at h1
      rcases List.mem_cons.mp h1 with h2 | h2
      · exact absurd h2 (by decide)
      · obtain ⟨-, hsome⟩ := mem_optKey _ _ _ h2
        rw [hnone] at hsome
        exact absurd hsome (by decide)
    · exact absurd h1 (by decide)
  · rintro cf rfl
    refine ⟨fun hn hmem => ?_, fun hn hmem => ?_, fun hn hmem => ?_, fun hn hmem => ?_⟩ <;>
    · rcases key_in_serializeFields _ _ hmem with h1 | h1 | h1 | h1
      · exact absurd h1 (by decide)
      · exact absurd h1 (by decide)
      · rcases key_in_conference _ _ h1 with h2 | ⟨h2, hs⟩ | ⟨h2, hs⟩ | ⟨h2, hs⟩ | ⟨h2, hs⟩ <;>
          first
            | exact absurd h2 (by decide)
            | (rw [hn] at hs; exact absurd hs (by decide))
      · exact absurd h1 (by decide)

/-- The event assembled from `(0, "[ERR] hi")`, used as the C6 witness
instance. -/
def jmErrHi : JsonMessage :=
  { ts := "0.0".toList, level := "ERRO".toList,
    source_with_tags := .core { handle_id := none }, msg := "hi".toList }

/-- C6 witness: the theorem applied at the concrete event assembled from
`(0, "[ERR] hi")`. -/
theorem c6_serialization_witness :
    (Message.to_json_message { timestamp := 0, line := "[ERR] hi".toList } = some jmErrHi) ∧
    (serializeFields jmErrHi).lookup ("source".toList) = some (.jstr ("core".toList)) ∧
    ("handle_id".toList) ∉ (serializeFields jmErrHi).map Prod.fst := by
  have heq : Message.to_json_message { timestamp := 0, line := "[ERR] hi".toList } =
      some jmErrHi := by decide
  have h := c6_serialization _ _ heq
  exact ⟨heq, h.1, h.2.2.2.2.1 _ rfl rfl⟩

/-- C7 (amended).  For any serializer behavior and any sequence of channel
messages that all assemble (timestamps in the convertible range), the
worker emits exactly the serializable events in order — an event whose
serialization fails is dropped and the loop continues with the subsequent
messages — and the loop ends normally (`false`) exactly when the channel
is exhausted, i.e. closed.  (The unamended claim — the loop terminates
only when the channel is closed — fails when a message's assembly panics:
see the counterexample.) -/
theorem c7_worker_loop (ser : JsonMessage → Option (List Char)) (msgs : List Message)
    (h : ∀ m ∈ msgs, (Message.to_json_message m).isSome = true) :
    workerRun ser msgs =
      (msgs.filterMap (fun m => (Message.to_json_message m).bind ser), false) := by
  induction msgs with
  | nil => rfl
  | cons m rest ih =>
    obtain ⟨jm, hjm⟩ := Option.isSome_iff_exists.mp (h m (by simp))
    have ihr := ih (fun x hx => h x (by simp [hx]))
    rw [workerRun, hjm]
    cases hser : ser jm <;>
      simp only [hser, ihr, List.filterMap_cons, hjm, Option.some_bind]

/-- C7 counterexample: a message with timestamp `-1` panics the worker
thread (modelled by the `true` flag), terminating the loop although the
channel still holds a further message and is not closed; that further
message alone would have been emitted. -/
theorem c7_worker_loop_counterexample :
    workerRun serializeLine
        [{ timestamp := -1, line := "x".toList }, { timestamp := 0, line := "y".toList }] =
      ([], true) ∧
    (workerRun serializeLine [{ timestamp := 0, line := "y".toList }]).2 = false ∧
    (workerRun serializeLine [{ timestamp := 0, line := "y".toList }]).1.length = 1 := by
  refine ⟨by decide, by decide, by decide⟩

/-- A serializer that fails on the event whose message text is `"b"`,
used to exhibit drop-and-continue. -/
def serDropB : JsonMessage → Option (List Char) :=
  fun jm => if jm.msg = "b".toList then none else serializeLine jm

/-- Three valid messages, the middle one fated to fail serialization under
`serDropB`. -/
def msgsABC : List Message :=
  [{ timestamp := 0, line := "a".toList }, { timestamp := 0, line := "b".toList },
   { timestamp := 0, line := "c".toList }]

/-- C7 witness: the theorem applied at `serDropB` and `msgsABC` — the
middle event is dropped, the two others are emitted, and the loop ends
normally. -/
theorem c7_worker_loop_witness :
    workerRun serDropB msgsABC =
      (msgsABC.filterMap (fun m => (Message.to_json_message m).bind serDropB), false) ∧
    (workerRun serDropB msgsABC).1.length = 2 := by
  refine ⟨c7_worker_loop serDropB msgsABC (by decide), by decide⟩

/-- C8.  `incoming_logline` is fire-and-forget: for every channel state —
open or closed — and every timestamp and line, the host-visible return
value is `()` (no error is surfaced), and the state is either extended
with the enqueued message or, when the consumer side is gone, left
unchanged with the failure swallowed. -/
theorem c8_fire_and_forget (st : ChannelState) (t : Int) (line : List Char) :
    (incoming_logline st t line).2 = PUnit.unit ∧
    (incoming_logline st t line).1 =
      (if st.closed = true then st
       else { queue := st.queue ++ [{ timestamp := t, line := line }], closed := st.closed }) := by
  constructor
  · rfl
  · rw [incoming_logline, sendMsg]
    split_ifs with hc <;> simp [hc]

/-- With the real (total) serializer, the worker emits one line per
assembled message, in channel order. -/
theorem workerRun_serializeLine (msgs : List Message)
    (h : ∀ m ∈ msgs, (Message.to_json_message m).isSome = true) :
    workerRun serializeLine msgs = (msgs.map renderMsg, false) := by
  induction msgs with
  | nil => rfl
  | cons m rest ih =>
    obtain ⟨jm, hjm⟩ := Option.isSome_iff_exists.mp (h m (by simp))
    have ihr := ih (fun x hx => h x (by simp [hx]))
    rw [workerRun, hjm]
    simp only [serializeLine, ihr, List.map_cons]
    simp [renderMsg, hjm, serializeLine]

/-- Sum of a pointwise sum of two maps. -/
theorem sum_map_add_nat {α : Type} (l : List α) (f g : α → Nat) :
    (l.map fun i => f i + g i).sum = (l.map f).sum + (l.map g).sum := by
  induction l with
  | nil => simp
  | cons a t ih =>
    simp only [List.map_cons, List.sum_cons, ih]
    omega

/-- The indicator of one index sums to one over `range N`. -/
theorem sum_indicator (N k : Nat) (h : k < N) :
    ((List.range N).map (fun i => if k == i then 1 else 0)).sum = 1 := by
  induction N with
  | zero => omega
  | succ N ih =>
    rw [List.range_succ, List.map_append, List.sum_append]
    by_cases hk : k = N
    · subst hk
      have hz : ((List.range k).map (fun i => if k == i then 1 else 0)).sum = 0 := by
        apply List.sum_eq_zero
        intro x hx
        obtain ⟨i, hi, rfl⟩ := List.mem_map.mp hx
        have hne : k ≠ i := by
          have := List.mem_range.mp hi
          omega
        simp [show (k == i) = false from by simpa using hne]
      rw [hz]
      simp
    · have hk' : k < N := by omega
      rw [ih hk']
      simp only [show (k == N) = false from by simpa using hk, List.map_cons, List.map_nil,
        List.sum_cons, List.sum_nil, if_false, Bool.false_eq_true]
      omega

/-- A list whose producer tags all lie below `N` has length equal to the
sum of its per-producer filter lengths. -/
theorem length_filter_partition (flat : List (Nat × Message)) (N : Nat)
    (h : ∀ x ∈ flat, x.1 < N) :
    flat.length =
      ((List.range N).map (fun i => (flat.filter (fun x => x.1 == i)).length)).sum := by
  induction flat with
  | nil =>
    symm
    apply List.sum_eq_zero
    intro x hx
    obtain ⟨i, -, rfl⟩ := List.mem_map.mp hx
    simp
  | cons a t ih =>
    have ha := h a (by simp)
    have iht := ih (fun x hx => h x (by simp [hx]))
    have hmapeq :
        (List.range N).map (fun i => (List.filter (fun x => x.1 == i) (a :: t)).length) =
          (List.range N).map
            (fun i => (if a.1 == i then 1 else 0) + (List.filter (fun x => x.1 == i) t).length) := by
      apply List.map_congr_left
      intro i hi
      rw [List.filter_cons]
      cases hab : (a.1 == i) <;> · simp [hab]; try omega
    rw [hmapeq, sum_map_add_nat, ← iht, sum_indicator N a.1 ha]
    simp
    omega

/-- C9 (amended).  N concurrent callers each issuing M sequential ingest
calls — modelled as any channel arrival order `flat` of producer-tagged
messages whose per-producer projections are the callers' call sequences —
result, provided every timestamp is in the convertible range, in exactly
N×M emitted JSON lines, one per message in channel order, with each
caller's own M lines emitted in that caller's call order; nothing is
guaranteed about the relative order of different callers (the theorem
holds for every interleaving `flat`).  (The unamended claim — exactly N×M
lines for arbitrary calls — fails when a call's timestamp panics the
worker: see the counterexample.) -/
theorem c9_concurrency (M : Nat) (seqs : List (List Message)) (flat : List (Nat × Message))
    (hM : ∀ s ∈ seqs, s.length = M)
    (htag : ∀ x ∈ flat, x.1 < seqs.length)
    (hfifo : ∀ i (h : i < seqs.length),
      (flat.filter (fun x => x.1 == i)).map Prod.snd = seqs.get ⟨i, h⟩)
    (hvalid : ∀ x ∈ flat, (Message.to_json_message x.2).isSome = true) :
    (workerRun serializeLine (flat.map Prod.snd)).1 = (flat.map Prod.snd).map renderMsg ∧
    (workerRun serializeLine (flat.map Prod.snd)).1.length = seqs.length * M ∧
    (∀ i (h : i < seqs.length),
      ((flat.map (fun p => (p.1, renderMsg p.2))).filter (fun x => x.1 == i)).map Prod.snd =
        (seqs.get ⟨i, h⟩).map renderMsg) := by
  have hrun := workerRun_serializeLine (flat.map Prod.snd) (by
    intro m hm
    obtain ⟨x, hx, rfl⟩ := List.mem_map.mp hm
    exact hvalid x hx)
  refine ⟨by rw [hrun], ?_, ?_⟩
  · rw [hrun]
    simp only [List.length_map]
    rw [length_filter_partition flat seqs.length htag]
    have hrepl : (List.range seqs.length).map
        (fun i => (flat.filter (fun x => x.1 == i)).length) =
          List.replicate seqs.length M := by
      rw [List.eq_replicate_iff]
      refine ⟨by simp, ?_⟩
      intro b hb
      obtain ⟨i, hi, rfl⟩ := List.mem_map.mp hb
      have hilt := List.mem_range.mp hi
      have hlen := congrArg List.length (hfifo i hilt)
      simp only [List.length_map] at hlen
      rw [hlen]
      exact hM _ (List.get_mem _ _ _)
    rw [hrepl, List.sum_replicate, smul_eq_mul]
  · intro i h
    have hstep : ((flat.map (fun p => (p.1, renderMsg p.2))).filter (fun x => x.1 == i)) =
        (flat.filter (fun x => x.1 == i)).map (fun p => (p.1, renderMsg p.2)) := by
      rw [List.filter_map]
      congr 1
    rw [hstep, List.map_map]
    have hback : ((flat.filter (fun x => x.1 == i)).map Prod.snd).map renderMsg =
        (flat.filter (fun x => x.1 == i)).map (Prod.snd ∘ (fun p => (p.1, renderMsg p.2))) := by
      rw [List.map_map]
      rfl
    rw [← hback, hfifo i h]

/-- Two producers' call sequences for the C9 witness (N = 2, M = 2). -/
def seqsW : List (List Message) :=
  [[{ timestamp := 1, line := "a".toList }, { timestamp := 2, line := "b".toList }],
   [{ timestamp := 3, line := "c".toList }, { timestamp := 4, line := "d".toList }]]

/-- One interleaved channel arrival order of `seqsW`'s messages. -/
def flatW : List (Nat × Message) :=
  [(0, { timestamp := 1, line := "a".toList }), (1, { timestamp := 3, line := "c".toList }),
   (1, { timestamp := 4, line := "d".toList }), (0, { timestamp := 2, line := "b".toList })]

/-- C9 witness: the theorem applied at the concrete interleaving `flatW`
of `seqsW` — four lines are emitted and each producer's two lines appear
in its own call order. -/
theorem c9_concurrency_witness :
    (workerRun serializeLine (flatW.map Prod.snd)).1.length = seqsW.length * 2 ∧
    (∀ i (h : i < seqsW.length),
      ((flatW.map (fun p => (p.1, renderMsg p.2))).filter (fun x => x.1 == i)).map Prod.snd =
        (seqsW.get ⟨i, h⟩).map renderMsg) := by
  have h := c9_concurrency 2 seqsW flatW (by decide) (by decide) (by decide) (by decide)
  exact ⟨h.2.1, h.2.2⟩

/-- C9 counterexample: one caller (N = 1) issuing two calls (M = 2), the
first with timestamp `-1`: the worker dies on the first message and emits
zero lines, not 1×2. -/
theorem c9_concurrency_counterexample :
    (workerRun serializeLine
        [{ timestamp := -1, line := "p".toList }, { timestamp := 5, line := "q".toList }]).1.length
      = 0 := by
  decide
